import Mathlib

/-!
Verification of the `aliasable` Rust crate (aliasable, non-`Unique`-backed
owner types) against its natural-language specification.

The heap model: an allocation is identified by a numeric address (`ptr`).
The elements stored at that address are carried inline as a `List`, so a
value of `UniqueVec T` bundles the raw parts `(ptr, data, cap)` that the
Rust `Vec<T>` exposes via `as_mut_ptr / len / capacity` (the `len` field of
the Rust struct is `data.length` here).  Allocation is modelled by a
monotone counter handing out fresh addresses.
-/

namespace Aliasable

/-- Model of `alloc::vec::Vec<T>` (re-exported as `UniqueVec`): the raw parts
`(ptr, data, cap)`.  `data` stands for both the `len` field and the elements
stored on the heap at `ptr`. -/
structure UniqueVec (T : Type) where
  ptr : Nat
  data : List T
  cap : Nat
  deriving DecidableEq

/-- The invariant every real Rust `Vec` satisfies: `len ≤ capacity`. -/
def UniqueVec.Wf {T : Type} (u : UniqueVec T) : Prop :=
  u.data.length ≤ u.cap

instance {T : Type} (u : UniqueVec T) : Decidable u.Wf := by
  unfold UniqueVec.Wf; infer_instance

/-- Model of `Vec::new()`: no allocation, dangling pointer (modelled as
address 0), zero length and capacity. -/
def UniqueVec.new (T : Type) : UniqueVec T := ⟨0, [], 0⟩

/-- Model of `Vec::truncate(n)`: drops elements past `n`; pointer and
capacity are untouched. -/
def UniqueVec.truncate {T : Type} (u : UniqueVec T) (n : Nat) : UniqueVec T :=
  ⟨u.ptr, u.data.take n, u.cap⟩

/-- Model of `<[T]>::clone_from_slice` called through
`Vec::clone_from_slice`: overwrites the elements with clones of `src`
(callers guarantee `src.length = u.data.length`); pointer and capacity are
untouched. -/
def UniqueVec.cloneFromSlice {T : Type} (u : UniqueVec T) (src : List T) : UniqueVec T :=
  ⟨u.ptr, src, u.cap⟩

/-- Model of `Vec::reserve(n)` with `RawVec`'s amortized growth: if the
spare capacity suffices nothing happens, otherwise the buffer is reallocated
(to the fresh address `newPtr`) with capacity `max (2 * cap) (len + n)`. -/
def UniqueVec.reserveFor {T : Type} (u : UniqueVec T) (n : Nat) (newPtr : Nat) : UniqueVec T :=
  if u.data.length + n ≤ u.cap then u
  else ⟨newPtr, u.data, max (2 * u.cap) (u.data.length + n)⟩

/-- Model of `Vec::extend_from_slice(tail)`: reserve room for `tail`, then
clone the elements of `tail` onto the end. -/
def UniqueVec.extendFromSlice {T : Type} (u : UniqueVec T) (tail : List T) (newPtr : Nat) :
    UniqueVec T :=
  let r := u.reserveFor tail.length newPtr
  ⟨r.ptr, r.data ++ tail, r.cap⟩

/-- Model of `core::pin::Pin`: a transparent wrapper; pinning never changes
the wrapped value. -/
structure Pinned (T : Type) where
  inner : T
  deriving DecidableEq

/-- `aliasable::vec::AliasableVec<T>`: the struct `{ ptr, len, cap }`
together with the elements stored at `ptr` (jointly modelled by `data`,
exactly as for `UniqueVec`). -/
structure AliasableVec (T : Type) where
  ptr : Nat
  data : List T
  cap : Nat
  deriving DecidableEq

namespace AliasableVec

/-- `AliasableVec::len` (src/vec.rs:24): reads the `len` field. -/
def len {T : Type} (v : AliasableVec T) : Nat := v.data.length

/-- `AliasableVec::capacity` (src/vec.rs:29): reads the `cap` field. -/
def capacity {T : Type} (v : AliasableVec T) : Nat := v.cap

/-- `AliasableVec::as_ptr` (src/vec.rs:34): reads the pointer. -/
def as_ptr {T : Type} (v : AliasableVec T) : Nat := v.ptr

/-- `AliasableVec::from_unique` (src/vec.rs:44): wrap the unique vector in
`ManuallyDrop`, read its raw parts `(ptr, len, cap)` and store them. -/
def from_unique {T : Type} (u : UniqueVec T) : AliasableVec T :=
  ⟨u.ptr, u.data, u.cap⟩

/-- `AliasableVec::into_unique` (src/vec.rs:64): suppress the aliasable
drop and rebuild the unique vector with `Vec::from_raw_parts(ptr, len, cap)`. -/
def into_unique {T : Type} (v : AliasableVec T) : UniqueVec T :=
  ⟨v.ptr, v.data, v.cap⟩

/-- `AliasableVec::into_unique_pin` (src/vec.rs:76): unwrap the pin, convert,
re-pin. -/
def into_unique_pin {T : Type} (p : Pinned (AliasableVec T)) : Pinned (UniqueVec T) :=
  ⟨into_unique p.inner⟩

/-- `AliasableVec::from_unique_pin` (src/vec.rs:86): unwrap the pin, convert,
re-pin. -/
def from_unique_pin {T : Type} (p : Pinned (UniqueVec T)) : Pinned (AliasableVec T) :=
  ⟨from_unique p.inner⟩

/-- `Deref for AliasableVec` (src/vec.rs:126): the slice
`from_raw_parts(ptr, len)`, i.e. the stored elements. -/
def deref {T : Type} (v : AliasableVec T) : List T := v.data

/-- `Default for AliasableVec` (src/vec.rs:166): `from_unique(Vec::new())`. -/
def default (T : Type) : AliasableVec T := from_unique (UniqueVec.new T)

/-- `Clone for AliasableVec::clone` (src/vec.rs:173):
`from_unique((**self).to_vec())`.  For a nonempty slice, `to_vec` allocates
a fresh buffer of capacity exactly `len` and clones the elements into it;
the allocator is the counter `σ`, which returns the fresh address `σ` and
advances past the new block.  For an empty slice `to_vec` performs no
allocation and returns the dangling pointer (address 0 in this model, the
same convention as `UniqueVec.new`), leaving the allocator untouched. -/
def clone {T : Type} (v : AliasableVec T) (σ : Nat) : AliasableVec T × Nat :=
  if v.data.isEmpty then (from_unique ⟨0, v.data, v.data.length⟩, σ)
  else (from_unique ⟨σ, v.data, v.data.length⟩, σ + v.data.length + 1)

/-- `Clone for AliasableVec::clone_from` (src/vec.rs:177-194):
`mem::take(self)` is converted back to a unique vector and held by the
`Guard`; the guard's vector is truncated to the source length, the source is
split at the truncated length, the overlapping prefix is overwritten with
`clone_from_slice` and the remainder appended with `extend_from_slice`;
finally the guard (normal exit or unwind) stores
`from_unique` of its vector back into the receiver.  `newPtr` is the fresh
address used if `extend_from_slice` has to reallocate. -/
def clone_from {T : Type} (r s : AliasableVec T) (newPtr : Nat) : AliasableVec T :=
  let taken := into_unique r
  let g1 := taken.truncate s.data.length
  let init := s.data.take g1.data.length
  let tail := s.data.drop g1.data.length
  let g2 := g1.cloneFromSlice init
  let g3 := g2.extendFromSlice tail newPtr
  from_unique g3

/-- The receiver state produced by `clone_from` when the clone of element
number `k` (counting all element clones, first the overwriting
`clone_from_slice` phase, then the appending `extend_from_slice` phase)
panics: the `Guard`'s `Drop` impl runs on unwind and stores
`from_unique` of the vector it holds at that moment back into the receiver.
During `clone_from_slice`, position `k` still holds the old element when the
clone at `k` panics; during `extend_from_slice` the reallocation (if any)
already happened and `k - m` tail elements were appended. -/
def clone_from_panic {T : Type} (r s : AliasableVec T) (newPtr k : Nat) : AliasableVec T :=
  let taken := into_unique r
  let g1 := taken.truncate s.data.length
  let m := g1.data.length
  if k < m then
    from_unique ⟨g1.ptr, s.data.take k ++ g1.data.drop k, g1.cap⟩
  else
    let g2 := (g1.cloneFromSlice (s.data.take m)).reserveFor (s.data.length - m) newPtr
    from_unique ⟨g2.ptr, g2.data ++ (s.data.drop m).take (k - m), g2.cap⟩

end AliasableVec

/-- Model of `alloc::boxed::Box<T>` (re-exported as `UniqueBox`): the
allocation address and the value stored there. -/
structure UniqueBox (T : Type) where
  ptr : Nat
  value : T
  deriving DecidableEq

/-- `aliasable::boxed::AliasableBox<T>`: a `NonNull<T>` pointing at the
leaked allocation; `value` is the pointee. -/
structure AliasableBox (T : Type) where
  ptr : Nat
  value : T
  deriving DecidableEq

namespace AliasableBox

/-- `AliasableBox::from_unique` (src/boxed.rs:19): `Box::leak` the unique
box and keep the pointer: same address, same pointee. -/
def from_unique {T : Type} (u : UniqueBox T) : AliasableBox T :=
  ⟨u.ptr, u.value⟩

/-- `AliasableBox::into_unique` (src/boxed.rs:28): suppress the aliasable
drop and rebuild with `Box::from_raw`. -/
def into_unique {T : Type} (b : AliasableBox T) : UniqueBox T :=
  ⟨b.ptr, b.value⟩

/-- `AliasableBox::into_unique_pin` (src/boxed.rs:40). -/
def into_unique_pin {T : Type} (p : Pinned (AliasableBox T)) : Pinned (UniqueBox T) :=
  ⟨into_unique p.inner⟩

/-- `AliasableBox::from_unique_pin` (src/boxed.rs:50). -/
def from_unique_pin {T : Type} (p : Pinned (UniqueBox T)) : Pinned (AliasableBox T) :=
  ⟨from_unique p.inner⟩

/-- `Deref for AliasableBox` (src/boxed.rs:83): the pointee. -/
def deref {T : Type} (b : AliasableBox T) : T := b.value

end AliasableBox

/-- Model of `alloc::string::String` (re-exported as `UniqueString`): a
byte vector (`Vec<u8>`, bytes modelled as `Nat`) that holds valid UTF-8. -/
structure UniqueString where
  vec : UniqueVec Nat
  deriving DecidableEq

/-- `aliasable::string::AliasableString`: a newtype over
`AliasableVec<u8>`. -/
structure AliasableString where
  vec : AliasableVec Nat
  deriving DecidableEq

namespace AliasableString

/-- `AliasableString::into_bytes` (src/string.rs:19): unwrap the newtype. -/
def into_bytes (s : AliasableString) : AliasableVec Nat := s.vec

/-- `AliasableString::from_unique` (src/string.rs:24):
`Self(s.into_bytes().into())` — take the string's byte vector and convert
it with `AliasableVec::from_unique`. -/
def from_unique (s : UniqueString) : AliasableString :=
  ⟨AliasableVec.from_unique s.vec⟩

/-- `AliasableString::into_unique` (src/string.rs:30): convert the byte
vector back with `AliasableVec::into_unique` and rebuild the string with
`String::from_utf8_unchecked` (a pure reinterpretation of the bytes). -/
def into_unique (s : AliasableString) : UniqueString :=
  ⟨AliasableVec.into_unique s.vec⟩

/-- `AliasableString::into_unique_pin` (src/string.rs:38). -/
def into_unique_pin (p : Pinned AliasableString) : Pinned UniqueString :=
  ⟨into_unique p.inner⟩

/-- `AliasableString::from_unique_pin` (src/string.rs:48). -/
def from_unique_pin (p : Pinned UniqueString) : Pinned AliasableString :=
  ⟨from_unique p.inner⟩

/-- `Clone for AliasableString::clone` (src/string.rs:117):
`Self(self.0.clone())`. -/
def clone (s : AliasableString) (σ : Nat) : AliasableString × Nat :=
  let c := s.vec.clone σ
  (⟨c.1⟩, c.2)

/-- `Clone for AliasableString::clone_from` (src/string.rs:121):
`self.0.clone_from(&source.0)`. -/
def clone_from (r s : AliasableString) (newPtr : Nat) : AliasableString :=
  ⟨AliasableVec.clone_from r.vec s.vec newPtr⟩

end AliasableString

/-- Model of `AliasableMut<'a, T>` (src/mut_ref.rs:22): a `NonNull<T>`
built from an exclusive borrow; `value` is the pointee. -/
structure AliasableMut (T : Type) where
  ptr : Nat
  value : T
  deriving DecidableEq

/-- `AliasableMut::from_unique` (src/mut_ref.rs:31): record the borrow's
address (the pointee comes along with it in this model). -/
def AliasableMut.from_unique {T : Type} (ptr : Nat) (value : T) : AliasableMut T :=
  ⟨ptr, value⟩

/-- `Deref for AliasableMut` (src/mut_ref.rs:76): the pointee. -/
def AliasableMut.deref {T : Type} (m : AliasableMut T) : T := m.value

/-! ## Comparison operators

Models of the `PartialEq` / `PartialOrd` / `Ord` impls.  Rust's `Ordering`
is Lean's `Ordering`; a linear order on the element type stands for the
element type's `Ord` impl. -/

/-- `<u8 as Ord>::cmp` (also the order on code points): numeric order. -/
def ncmp (a b : Nat) : Ordering :=
  if a < b then .lt else if a = b then .eq else .gt

/-- Model of the slice comparison `<[T] as Ord>::cmp`: lexicographic
elementwise comparison, the shorter slice being less when one is a proper
front part of the other. -/
def cmpL {α : Type} (c : α → α → Ordering) : List α → List α → Ordering
  | [], [] => .eq
  | [], _ :: _ => .lt
  | _ :: _, [] => .gt
  | x :: xs, y :: ys => (c x y).then (cmpL c xs ys)

/-- Model of the slice equality `<[T] as PartialEq<[U]>>::eq`: equal
lengths and pairwise-equal elements (the element types may differ). -/
def eqL {α β : Type} (e : α → β → Bool) : List α → List β → Bool
  | [], [] => true
  | x :: xs, y :: ys => e x y && eqL e xs ys
  | _, _ => false

namespace AliasableVec

/-- `PartialEq<AliasableVec<U>> for AliasableVec<T>` (src/vec.rs:199):
`**self == **other`, the heterogeneous slice equality of the dereferenced
contents. -/
def beq {T U : Type} (e : T → U → Bool) (a : AliasableVec T) (b : AliasableVec U) : Bool :=
  eqL e a.deref b.deref

/-- Homogeneous `==` with the element type's own equality. -/
def eqv {T : Type} [DecidableEq T] (a b : AliasableVec T) : Bool :=
  beq (fun x y => decide (x = y)) a b

/-- `PartialEq::ne` (default method): the negation of `eq`. -/
def nev {T : Type} [DecidableEq T] (a b : AliasableVec T) : Bool :=
  !(eqv a b)

/-- `Ord for AliasableVec::cmp` (src/vec.rs:215): `(**self).cmp(&**other)`,
the slice comparison of the contents. -/
def cmpv {T : Type} [LinearOrder T] (a b : AliasableVec T) : Ordering :=
  cmpL compare a.deref b.deref

/-- `PartialOrd::lt` (default method): `partial_cmp == Some(Less)`;
`partial_cmp` (src/vec.rs:208) is `Some` of the slice comparison. -/
def ltv {T : Type} [LinearOrder T] (a b : AliasableVec T) : Bool :=
  decide (cmpv a b = .lt)

/-- `PartialOrd::le` (default method): `matches!(.., Some(Less | Equal))`. -/
def lev {T : Type} [LinearOrder T] (a b : AliasableVec T) : Bool :=
  decide (cmpv a b = .lt ∨ cmpv a b = .eq)

/-- `PartialOrd::gt` (default method). -/
def gtv {T : Type} [LinearOrder T] (a b : AliasableVec T) : Bool :=
  decide (cmpv a b = .gt)

/-- `PartialOrd::ge` (default method). -/
def gev {T : Type} [LinearOrder T] (a b : AliasableVec T) : Bool :=
  decide (cmpv a b = .gt ∨ cmpv a b = .eq)

end AliasableVec

namespace AliasableBox

/-- `PartialEq for AliasableBox` (src/boxed.rs:142): `**self == **other`. -/
def eqb {T : Type} [DecidableEq T] (a b : AliasableBox T) : Bool :=
  decide (a.deref = b.deref)

/-- `PartialEq::ne` (default method). -/
def neb {T : Type} [DecidableEq T] (a b : AliasableBox T) : Bool :=
  !(eqb a b)

/-- `PartialOrd::lt for AliasableBox` (src/boxed.rs:155): `**self < **other`. -/
def ltb {T : Type} [LinearOrder T] (a b : AliasableBox T) : Bool :=
  decide (a.deref < b.deref)

/-- `PartialOrd::le for AliasableBox` (src/boxed.rs:159). -/
def leb {T : Type} [LinearOrder T] (a b : AliasableBox T) : Bool :=
  decide (a.deref ≤ b.deref)

/-- `PartialOrd::gt for AliasableBox` (src/boxed.rs:163). -/
def gtb {T : Type} [LinearOrder T] (a b : AliasableBox T) : Bool :=
  decide (b.deref < a.deref)

/-- `PartialOrd::ge for AliasableBox` (src/boxed.rs:167). -/
def geb {T : Type} [LinearOrder T] (a b : AliasableBox T) : Bool :=
  decide (b.deref ≤ a.deref)

/-- `Ord for AliasableBox::cmp` (src/boxed.rs:174): `(**self).cmp(&**other)`. -/
def cmpb {T : Type} [LinearOrder T] (a b : AliasableBox T) : Ordering :=
  compare a.deref b.deref

end AliasableBox

namespace AliasableMut

/-- `PartialEq for AliasableMut` (src/mut_ref.rs:120): `**self == **other`. -/
def eqm {T : Type} [DecidableEq T] (a b : AliasableMut T) : Bool :=
  decide (a.deref = b.deref)

/-- `PartialEq::ne` (default method). -/
def nem {T : Type} [DecidableEq T] (a b : AliasableMut T) : Bool :=
  !(eqm a b)

/-- `PartialOrd::lt for AliasableMut` (src/mut_ref.rs:133). -/
def ltm {T : Type} [LinearOrder T] (a b : AliasableMut T) : Bool :=
  decide (a.deref < b.deref)

/-- `PartialOrd::le for AliasableMut` (src/mut_ref.rs:137). -/
def lem {T : Type} [LinearOrder T] (a b : AliasableMut T) : Bool :=
  decide (a.deref ≤ b.deref)

/-- `PartialOrd::gt for AliasableMut` (src/mut_ref.rs:141). -/
def gtm {T : Type} [LinearOrder T] (a b : AliasableMut T) : Bool :=
  decide (b.deref < a.deref)

/-- `PartialOrd::ge for AliasableMut` (src/mut_ref.rs:145). -/
def gem {T : Type} [LinearOrder T] (a b : AliasableMut T) : Bool :=
  decide (b.deref ≤ a.deref)

/-- `Ord for AliasableMut::cmp` (src/mut_ref.rs:152). -/
def cmpm {T : Type} [LinearOrder T] (a b : AliasableMut T) : Ordering :=
  compare a.deref b.deref

end AliasableMut

namespace AliasableString

/-- Derived `PartialEq` (src/string.rs:14): equality of the wrapped
`AliasableVec<u8>`, i.e. byte-slice equality. -/
def beqs (s t : AliasableString) : Bool :=
  AliasableVec.beq (fun a b => decide (a = b)) s.vec t.vec

/-- Derived `Ord` (src/string.rs:14): comparison of the wrapped
`AliasableVec<u8>`, i.e. byte-slice lexicographic comparison with `u8`'s
numeric order. -/
def cmps (s t : AliasableString) : Ordering :=
  cmpL ncmp s.vec.data t.vec.data

/-- `PartialOrd::lt` (default method) for the derived order. -/
def lts (s t : AliasableString) : Bool :=
  decide (cmps s t = .lt)

/-- `PartialEq::ne` (default method) for the derived string equality. -/
def nes (s t : AliasableString) : Bool :=
  !(beqs s t)

/-- `PartialOrd::le` (default method) for the derived string order. -/
def les (s t : AliasableString) : Bool :=
  decide (cmps s t = .lt ∨ cmps s t = .eq)

/-- `PartialOrd::gt` (default method) for the derived string order. -/
def gts (s t : AliasableString) : Bool :=
  decide (cmps s t = .gt)

/-- `PartialOrd::ge` (default method) for the derived string order. -/
def ges (s t : AliasableString) : Bool :=
  decide (cmps s t = .gt ∨ cmps s t = .eq)

end AliasableString

/-! ## Hashing

A `Hasher` is modelled by the byte stream written to it (the crate's own
test-suite observes exactly this stream through its `DummyHasher`); the
`hashBytes` functions below give the bytes a value writes. -/

/-- `Hasher::write_usize`: the eight little-endian bytes of a 64-bit
length. -/
def usizeLE (n : Nat) : List Nat :=
  (List.range 8).map fun i => n / 256 ^ i % 256

/-- `Hash for str`: writes the UTF-8 content bytes followed by the
sentinel byte `0xFF`. -/
def strHashBytes (bytes : List Nat) : List Nat := bytes ++ [255]

/-- `Hash for [T]`: writes the length as a `usize`, then each element's
hash bytes in order. -/
def sliceHashBytes {T : Type} (eh : T → List Nat) (l : List T) : List Nat :=
  usizeLE l.length ++ (l.map eh).flatten

/-- `Hash for AliasableString` (src/string.rs:130): `(**self).hash(..)` —
hashes as the dereferenced `str`, not as a byte slice. -/
def AliasableString.hashBytes (s : AliasableString) : List Nat :=
  strHashBytes s.vec.data

/-- `Hash for String` (the standard text value): hashes as its `str`. -/
def UniqueString.hashBytes (s : UniqueString) : List Nat :=
  strHashBytes s.vec.data

/-- `Hash for AliasableVec` (src/vec.rs:222): `(**self).hash(..)` — hashes
as the dereferenced element slice; `eh` is the element type's hash. -/
def AliasableVec.hashBytes {T : Type} (eh : T → List Nat) (v : AliasableVec T) : List Nat :=
  sliceHashBytes eh v.data

/-- `Hash for Vec` (the standard vector): hashes as its element slice. -/
def UniqueVec.hashBytes {T : Type} (eh : T → List Nat) (u : UniqueVec T) : List Nat :=
  sliceHashBytes eh u.data

/-- `Hash for AliasableBox` (src/boxed.rs:180): `(**self).hash(..)`. -/
def AliasableBox.hashBytes {T : Type} (eh : T → List Nat) (b : AliasableBox T) : List Nat :=
  eh b.value

/-- `Hash for Box` (the standard box): hashes as its contained value. -/
def UniqueBox.hashBytes {T : Type} (eh : T → List Nat) (b : UniqueBox T) : List Nat :=
  eh b.value

/-! ## UTF-8 -/

/-- UTF-8 encoding of one code point, as Rust's `char::encode_utf8`
produces it (1 to 4 bytes by the code point's range). -/
def encChar (c : Nat) : List Nat :=
  if c < 128 then [c]
  else if c < 2048 then [192 + c / 64, 128 + c % 64]
  else if c < 65536 then [224 + c / 4096, 128 + c / 64 % 64, 128 + c % 64]
  else [240 + c / 262144, 128 + c / 4096 % 64, 128 + c / 64 % 64, 128 + c % 64]

/-- The byte contents of a Rust `String` whose code points are `cs`. -/
def encodeStr (cs : List Nat) : List Nat := (cs.map encChar).flatten

/-- The invariant of `AliasableVec`: the stored length never exceeds the
stored capacity. -/
def AliasableVec.Wf {T : Type} (v : AliasableVec T) : Prop :=
  v.data.length ≤ v.cap

instance {T : Type} (v : AliasableVec T) : Decidable v.Wf := by
  unfold AliasableVec.Wf; infer_instance

/-- The `AliasableVec` values producible through the crate's public
operations: `from_unique` of a well-formed unique vector,
`from_unique_pin`, `default`, `clone`, and `clone_from`. -/
inductive ReachableVec {T : Type} : AliasableVec T → Prop where
  | from_unique (u : UniqueVec T) (hu : u.Wf) :
      ReachableVec (AliasableVec.from_unique u)
  | from_unique_pin (u : UniqueVec T) (hu : u.Wf) :
      ReachableVec (AliasableVec.from_unique_pin ⟨u⟩).inner
  | default : ReachableVec (AliasableVec.default T)
  | clone (v : AliasableVec T) (σ : Nat) (hv : ReachableVec v) :
      ReachableVec (v.clone σ).1
  | clone_from (r s : AliasableVec T) (p : Nat) (hr : ReachableVec r)
      (hs : ReachableVec s) : ReachableVec (AliasableVec.clone_from r s p)

/-! ## Helper lemmas -/

theorem cmpL_cons_lt {α : Type} {c : α → α → Ordering} {x y : α} {xs ys : List α}
    (h : c x y = .lt) : cmpL c (x :: xs) (y :: ys) = .lt := by
  simp [cmpL, h, Ordering.then]

theorem cmpL_cons_eq {α : Type} {c : α → α → Ordering} {x y : α} {xs ys : List α}
    (h : c x y = .eq) : cmpL c (x :: xs) (y :: ys) = cmpL c xs ys := by
  simp [cmpL, h, Ordering.then]

theorem cmpL_self {α : Type} {c : α → α → Ordering} (hc : ∀ z, c z z = .eq) :
    ∀ l : List α, cmpL c l l = .eq := by
  intro l
  induction l with
  | nil => rfl
  | cons x xs ih => rw [cmpL_cons_eq (hc x)]; exact ih

theorem cmpL_append_same {α : Type} {c : α → α → Ordering} (hc : ∀ z, c z z = .eq)
    (p xs ys : List α) : cmpL c (p ++ xs) (p ++ ys) = cmpL c xs ys := by
  induction p with
  | nil => rfl
  | cons z p ih => simpa [cmpL_cons_eq (hc z)] using ih

theorem cmpL_swap {α : Type} {c : α → α → Ordering} (hc : ∀ x y, (c x y).swap = c y x) :
    ∀ xs ys : List α, (cmpL c xs ys).swap = cmpL c ys xs := by
  intro xs
  induction xs with
  | nil => intro ys; cases ys <;> rfl
  | cons x xs ih =>
    intro ys
    cases ys with
    | nil => rfl
    | cons y ys => simp [cmpL, Ordering.swap_then, hc, ih]

theorem ncmp_self (a : Nat) : ncmp a a = .eq := by
  simp [ncmp]

theorem ncmp_lt_of {a b : Nat} (h : a < b) : ncmp a b = .lt := by
  simp [ncmp, h]

theorem ncmp_eq_of {a b : Nat} (h : a = b) : ncmp a b = .eq := by
  subst h; exact ncmp_self a

theorem ncmp_swap (a b : Nat) : (ncmp a b).swap = ncmp b a := by
  unfold ncmp
  rcases Nat.lt_trichotomy a b with h | h | h
  · rw [if_pos h, if_neg (by omega), if_neg (by omega)]; rfl
  · subst h; simp [Ordering.swap]
  · rw [if_neg (by omega), if_neg (by omega), if_pos h]; rfl

theorem ncmp_eq_iff {a b : Nat} : ncmp a b = .eq ↔ a = b := by
  unfold ncmp
  split_ifs with h1 h2
  · simp; omega
  · simp [h2]
  · simp; omega

theorem cmpL_ncmp_eq_iff : ∀ xs ys : List Nat, cmpL ncmp xs ys = .eq ↔ xs = ys := by
  intro xs
  induction xs with
  | nil => intro ys; cases ys <;> simp [cmpL]
  | cons x xs ih =>
    intro ys
    cases ys with
    | nil => simp [cmpL]
    | cons y ys => simp [cmpL, Ordering.then_eq_eq, ncmp_eq_iff, ih]

theorem eqL_hom_iff {α : Type} [DecidableEq α] :
    ∀ xs ys : List α, eqL (fun x y => decide (x = y)) xs ys = true ↔ xs = ys := by
  intro xs
  induction xs with
  | nil => intro ys; cases ys <;> simp [eqL]
  | cons x xs ih =>
    intro ys
    cases ys with
    | nil => simp [eqL]
    | cons y ys => simp [eqL, ih]

theorem eqL_true_iff {α β : Type} (e : α → β → Bool) :
    ∀ (xs : List α) (ys : List β),
      eqL e xs ys = true ↔
        xs.length = ys.length ∧
          ∀ (i : Nat) (hx : i < xs.length) (hy : i < ys.length),
            e (xs.get ⟨i, hx⟩) (ys.get ⟨i, hy⟩) = true
  | [], [] => by simp [eqL]
  | [], y :: ys => by simp [eqL]
  | x :: xs, [] => by simp [eqL]
  | x :: xs, y :: ys => by
    simp only [eqL, Bool.and_eq_true, eqL_true_iff e xs ys, List.length_cons]
    constructor
    · rintro ⟨hxy, hlen, hrec⟩
      refine ⟨by omega, ?_⟩
      intro i hx hy
      cases i with
      | zero => exact hxy
      | succ j => exact hrec j (by omega) (by omega)
    · rintro ⟨hlen, hall⟩
      refine ⟨hall 0 (by omega) (by omega), by omega, ?_⟩
      intro j hx hy
      exact hall (j + 1) (by omega) (by omega)

/-! ## UTF-8 encoding lemmas -/

theorem encChar1 {c : Nat} (h : c < 128) : encChar c = [c] := by
  unfold encChar; rw [if_pos h]

theorem encChar2 {c : Nat} (h1 : 128 ≤ c) (h2 : c < 2048) :
    encChar c = [192 + c / 64, 128 + c % 64] := by
  unfold encChar; rw [if_neg (by omega), if_pos h2]

theorem encChar3 {c : Nat} (h1 : 2048 ≤ c) (h2 : c < 65536) :
    encChar c = [224 + c / 4096, 128 + c / 64 % 64, 128 + c % 64] := by
  unfold encChar; rw [if_neg (by omega), if_neg (by omega), if_pos h2]

theorem encChar4 {c : Nat} (h1 : 65536 ≤ c) :
    encChar c = [240 + c / 262144, 128 + c / 4096 % 64, 128 + c / 64 % 64, 128 + c % 64] := by
  unfold encChar; rw [if_neg (by omega), if_neg (by omega), if_neg (by omega)]

theorem encChar_ne_nil (c : Nat) : encChar c ≠ [] := by
  unfold encChar; split_ifs <;> simp

/-- Code-point order transfers to byte-lexicographic order on the UTF-8
encodings, whatever follows each encoding in the byte stream. -/
theorem encChar_lt {a b : Nat} (h : a < b) (r t : List Nat) :
    cmpL ncmp (encChar a ++ r) (encChar b ++ t) = .lt := by
  by_cases ha1 : a < 128
  · rw [encChar1 ha1]
    by_cases hb1 : b < 128
    · rw [encChar1 hb1]
      simpa using cmpL_cons_lt (ncmp_lt_of h)
    · by_cases hb2 : b < 2048
      · rw [encChar2 (by omega) hb2]
        simpa using cmpL_cons_lt (ncmp_lt_of (by omega))
      · by_cases hb3 : b < 65536
        · rw [encChar3 (by omega) hb3]
          simpa using cmpL_cons_lt (ncmp_lt_of (by omega))
        · rw [encChar4 (by omega)]
          simpa using cmpL_cons_lt (ncmp_lt_of (by omega))
  · by_cases ha2 : a < 2048
    · rw [encChar2 (by omega) ha2]
      by_cases hb2 : b < 2048
      · rw [encChar2 (by omega) hb2]
        simp only [List.cons_append]
        rcases Nat.lt_trichotomy (a / 64) (b / 64) with hd | hd | hd
        · exact cmpL_cons_lt (ncmp_lt_of (by omega))
        · rw [cmpL_cons_eq (ncmp_eq_of (by omega))]
          exact cmpL_cons_lt (ncmp_lt_of (by omega))
        · exact absurd hd (by omega)
      · by_cases hb3 : b < 65536
        · rw [encChar3 (by omega) hb3]
          simpa using cmpL_cons_lt (ncmp_lt_of (by omega))
        · rw [encChar4 (by omega)]
          simpa using cmpL_cons_lt (ncmp_lt_of (by omega))
    · by_cases ha3 : a < 65536
      · rw [encChar3 (by omega) ha3]
        by_cases hb3 : b < 65536
        · rw [encChar3 (by omega) hb3]
          simp only [List.cons_append]
          rcases Nat.lt_trichotomy (a / 4096) (b / 4096) with hd | hd | hd
          · exact cmpL_cons_lt (ncmp_lt_of (by omega))
          · rw [cmpL_cons_eq (ncmp_eq_of (by omega))]
            rcases Nat.lt_trichotomy (a / 64 % 64) (b / 64 % 64) with he | he | he
            · exact cmpL_cons_lt (ncmp_lt_of (by omega))
            · rw [cmpL_cons_eq (ncmp_eq_of (by omega))]
              exact cmpL_cons_lt (ncmp_lt_of (by omega))
            · exact absurd he (by omega)
          · exact absurd hd (by omega)
        · rw [encChar4 (by omega)]
          simpa using cmpL_cons_lt (ncmp_lt_of (by omega))
      · rw [encChar4 (by omega), encChar4 (by omega)]
        simp only [List.cons_append]
        rcases Nat.lt_trichotomy (a / 262144) (b / 262144) with hd | hd | hd
        · exact cmpL_cons_lt (ncmp_lt_of (by omega))
        · rw [cmpL_cons_eq (ncmp_eq_of (by omega))]
          rcases Nat.lt_trichotomy (a / 4096 % 64) (b / 4096 % 64) with he | he | he
          · exact cmpL_cons_lt (ncmp_lt_of (by omega))
          · rw [cmpL_cons_eq (ncmp_eq_of (by omega))]
            rcases Nat.lt_trichotomy (a / 64 % 64) (b / 64 % 64) with hf | hf | hf
            · exact cmpL_cons_lt (ncmp_lt_of (by omega))
            · rw [cmpL_cons_eq (ncmp_eq_of (by omega))]
              exact cmpL_cons_lt (ncmp_lt_of (by omega))
            · exact absurd hf (by omega)
          · exact absurd he (by omega)
        · exact absurd hd (by omega)

/-- Byte-lexicographic comparison of the UTF-8 encodings computes exactly
the code-point lexicographic comparison. -/
theorem encodeStr_cmp : ∀ cs ct : List Nat,
    cmpL ncmp (encodeStr cs) (encodeStr ct) = cmpL ncmp cs ct := by
  intro cs
  induction cs with
  | nil =>
    intro ct
    cases ct with
    | nil => rfl
    | cons b ct =>
      obtain ⟨x, xs, hx⟩ := List.exists_cons_of_ne_nil (encChar_ne_nil b)
      simp [encodeStr, cmpL, hx]
  | cons a cs ih =>
    intro ct
    cases ct with
    | nil =>
      obtain ⟨x, xs, hx⟩ := List.exists_cons_of_ne_nil (encChar_ne_nil a)
      simp [encodeStr, cmpL, hx]
    | cons b ct =>
      have hl : encodeStr (a :: cs) = encChar a ++ encodeStr cs := by
        simp [encodeStr]
      have hr : encodeStr (b :: ct) = encChar b ++ encodeStr ct := by
        simp [encodeStr]
      rw [hl, hr]
      rcases Nat.lt_trichotomy a b with h | h | h
      · rw [encChar_lt h, cmpL_cons_lt (ncmp_lt_of h)]
      · subst h
        rw [cmpL_append_same ncmp_self, cmpL_cons_eq (ncmp_self a)]
        exact ih ct
      · have h1 : cmpL ncmp (encChar b ++ encodeStr ct) (encChar a ++ encodeStr cs) = .lt :=
          encChar_lt h _ _
        have h2 : cmpL ncmp (encChar a ++ encodeStr cs) (encChar b ++ encodeStr ct) = .gt := by
          have := cmpL_swap ncmp_swap (encChar b ++ encodeStr ct) (encChar a ++ encodeStr cs)
          rw [h1] at this
          rw [← this]; rfl
        have h3 : cmpL ncmp (a :: cs) (b :: ct) = .gt := by
          have := cmpL_swap ncmp_swap (b :: ct) (a :: cs)
          rw [cmpL_cons_lt (ncmp_lt_of h)] at this
          rw [← this]; rfl
        rw [h2, h3]

/-! ## clone_from structure -/

theorem clone_from_eq {T : Type} (r s : AliasableVec T) (p : Nat) :
    AliasableVec.clone_from r s p =
      if s.data.length ≤ r.cap then ⟨r.ptr, s.data, r.cap⟩
      else ⟨p, s.data, max (2 * r.cap) s.data.length⟩ := by
  unfold AliasableVec.clone_from AliasableVec.into_unique UniqueVec.truncate
    UniqueVec.cloneFromSlice UniqueVec.extendFromSlice UniqueVec.reserveFor
    AliasableVec.from_unique
  simp only [List.length_take]
  have hm : min (min s.data.length r.data.length) s.data.length
      = min s.data.length r.data.length := by omega
  rw [hm]
  have h2 : min s.data.length r.data.length
      + (s.data.length - min s.data.length r.data.length) = s.data.length := by omega
  simp only [List.length_drop, h2]
  split_ifs with h
  · simp [List.take_append_drop]
  · simp [List.take_append_drop, h2]

theorem clone_from_spec {T : Type} (r s : AliasableVec T) (p : Nat) :
    (AliasableVec.clone_from r s p).deref = s.deref ∧
      (AliasableVec.clone_from r s p).len ≤ (AliasableVec.clone_from r s p).capacity := by
  rw [clone_from_eq]
  split_ifs with h
  · exact ⟨rfl, h⟩
  · exact ⟨rfl, Nat.le_max_right _ _⟩

/-! ## Claim theorems -/

/-- Claim C1: for every unique owner value (a `UniqueVec`, `UniqueBox`, or
`UniqueString`), `into_unique (from_unique u) = u` — the round trip returns
the identical raw parts (address, length, capacity, content); both
conversions are total functions, so neither can fail. -/
theorem c1_unique_roundtrip {T : Type} (u : UniqueVec T) (b : UniqueBox T)
    (s : UniqueString) :
    AliasableVec.into_unique (AliasableVec.from_unique u) = u ∧
      AliasableBox.into_unique (AliasableBox.from_unique b) = b ∧
      AliasableString.into_unique (AliasableString.from_unique s) = s :=
  ⟨rfl, rfl, rfl⟩

/-- Claim C7: converting a pinned unique value (vector, box, or string) to
the pinned aliasable form and back yields the pinned value unchanged, and in
particular the dereferenced address after the round trip — and already in
the intermediate aliasable form — is the original's: the allocation is never
moved. -/
theorem c7_pin_roundtrip_address {T : Type} (u : UniqueVec T) (b : UniqueBox T)
    (s : UniqueString) :
    ((AliasableVec.from_unique_pin ⟨u⟩).inner.as_ptr = u.ptr ∧
        AliasableVec.into_unique_pin (AliasableVec.from_unique_pin ⟨u⟩) = ⟨u⟩ ∧
        (AliasableVec.into_unique_pin (AliasableVec.from_unique_pin ⟨u⟩)).inner.ptr = u.ptr) ∧
      ((AliasableBox.from_unique_pin ⟨b⟩).inner.ptr = b.ptr ∧
        AliasableBox.into_unique_pin (AliasableBox.from_unique_pin ⟨b⟩) = ⟨b⟩ ∧
        (AliasableBox.into_unique_pin (AliasableBox.from_unique_pin ⟨b⟩)).inner.ptr = b.ptr) ∧
      ((AliasableString.from_unique_pin ⟨s⟩).inner.vec.as_ptr = s.vec.ptr ∧
        AliasableString.into_unique_pin (AliasableString.from_unique_pin ⟨s⟩) = ⟨s⟩ ∧
        (AliasableString.into_unique_pin (AliasableString.from_unique_pin ⟨s⟩)).inner.vec.ptr
          = s.vec.ptr) :=
  ⟨⟨rfl, rfl, rfl⟩, ⟨rfl, rfl, rfl⟩, ⟨rfl, rfl, rfl⟩⟩

/-- Claim C8: an `AliasableVec<T>` equals an `AliasableVec<U>` under the
heterogeneous element equality `e` exactly when the two have the same
length and their elements compare equal pairwise. -/
theorem c8_heterogeneous_eq {T U : Type} (e : T → U → Bool) (a : AliasableVec T)
    (b : AliasableVec U) :
    AliasableVec.beq e a b = true ↔
      a.len = b.len ∧
        ∀ (i : Nat) (ha : i < a.deref.length) (hb : i < b.deref.length),
          e (a.deref.get ⟨i, ha⟩) (b.deref.get ⟨i, hb⟩) = true := by
  unfold AliasableVec.beq AliasableVec.len AliasableVec.deref
  exact eqL_true_iff e a.data b.data

/-- Claim C10: the derived byte-wise equality and ordering of
`AliasableString` (inherited from `AliasableVec<u8>`) coincide with
equality and code-point lexicographic ordering of the decoded texts,
because UTF-8 byte order agrees with code-point order. -/
theorem c10_string_order_matches_chars (cs ct : List Nat) (s t : AliasableString)
    (hs : s.vec.data = encodeStr cs) (ht : t.vec.data = encodeStr ct) :
    (AliasableString.beqs s t = true ↔ cs = ct) ∧
      (AliasableString.lts s t = true ↔ cmpL ncmp cs ct = .lt) ∧
      AliasableString.cmps s t = cmpL ncmp cs ct := by
  have hcmp : AliasableString.cmps s t = cmpL ncmp cs ct := by
    unfold AliasableString.cmps
    rw [hs, ht, encodeStr_cmp]
  refine ⟨?_, ?_, hcmp⟩
  · unfold AliasableString.beqs AliasableVec.beq AliasableVec.deref
    rw [hs, ht, eqL_hom_iff]
    constructor
    · intro h
      have h1 := (cmpL_ncmp_eq_iff (encodeStr cs) (encodeStr ct)).mpr h
      rw [encodeStr_cmp] at h1
      exact (cmpL_ncmp_eq_iff cs ct).mp h1
    · intro h
      rw [h]
  · unfold AliasableString.lts
    simp [hcmp]

/-- Claim C2: after `clone_from`, the receiver equals the source
element-wise (for every source length, shorter or longer than the
receiver's), and its length is at most its capacity; likewise for
`AliasableString::clone_from`, which delegates to the vector. -/
theorem c2_clone_from_correct {T : Type} (r s : AliasableVec T) (p : Nat)
    (rs ss : AliasableString) (q : Nat) :
    ((AliasableVec.clone_from r s p).deref = s.deref ∧
        (AliasableVec.clone_from r s p).len ≤ (AliasableVec.clone_from r s p).capacity) ∧
      ((AliasableString.clone_from rs ss q).vec.deref = ss.vec.deref ∧
        (AliasableString.clone_from rs ss q).vec.len
          ≤ (AliasableString.clone_from rs ss q).vec.capacity) :=
  ⟨clone_from_spec r s p, clone_from_spec rs.vec ss.vec q⟩

/-- Claim C3: if the clone of element number `k` panics midway through
`clone_from`, the guard's unwind path still leaves the receiver holding a
well-formed vector (length ≤ capacity) whose buffer is the one the guard
owned — either the receiver's original allocation or the single reallocated
buffer — so nothing is double-freed or leaked. -/
theorem c3_clone_from_panic_safe {T : Type} (r s : AliasableVec T) (p k : Nat)
    (hr : r.Wf) :
    (AliasableVec.clone_from_panic r s p k).Wf ∧
      ((AliasableVec.clone_from_panic r s p k).as_ptr = r.as_ptr ∨
        (AliasableVec.clone_from_panic r s p k).as_ptr = p) := by
  unfold AliasableVec.clone_from_panic AliasableVec.into_unique UniqueVec.truncate
    UniqueVec.cloneFromSlice UniqueVec.reserveFor AliasableVec.from_unique
  unfold AliasableVec.Wf AliasableVec.as_ptr at *
  simp only [List.length_take]
  split_ifs with h1 h2
  · constructor
    · simp only [List.length_append, List.length_take, List.length_drop]
      omega
    · exact Or.inl rfl
  · constructor
    · simp only [List.length_append, List.length_take, List.length_drop]
      omega
    · exact Or.inl rfl
  · constructor
    · simp only [List.length_append, List.length_take, List.length_drop]
      omega
    · exact Or.inr rfl

/-- Concrete instance of Claim C3's theorem: receiver `[1, 2]` with
capacity 2, source `[7]`, panic at the first element clone. -/
theorem c3_clone_from_panic_safe_witness :
    (AliasableVec.clone_from_panic (⟨0, [1, 2], 2⟩ : AliasableVec Nat) ⟨5, [7], 1⟩ 9 0).Wf ∧
      ((AliasableVec.clone_from_panic (⟨0, [1, 2], 2⟩ : AliasableVec Nat)
          ⟨5, [7], 1⟩ 9 0).as_ptr = (⟨0, [1, 2], 2⟩ : AliasableVec Nat).as_ptr ∨
        (AliasableVec.clone_from_panic (⟨0, [1, 2], 2⟩ : AliasableVec Nat)
          ⟨5, [7], 1⟩ 9 0).as_ptr = 9) :=
  c3_clone_from_panic_safe ⟨0, [1, 2], 2⟩ ⟨5, [7], 1⟩ 9 0 (by decide)

/-- Refutation of Claim C5 as stated: cloning the empty vector built from
`Vec::new()` performs no allocation — `to_vec` of an empty slice returns
the dangling pointer — so the clone's address equals the original's
(the contents are still equal element-wise). -/
theorem c5_clone_counterexample :
    ((AliasableVec.default Nat).clone 1).1.as_ptr = (AliasableVec.default Nat).as_ptr ∧
      ((AliasableVec.default Nat).clone 1).1.deref = (AliasableVec.default Nat).deref :=
  ⟨rfl, rfl⟩

/-- Claim C5 (amended): for every `AliasableVec` or `AliasableString` whose
contents are nonempty — so that `clone` really allocates — the clone equals
the original element-wise but its address differs from the live original's,
so the two never share storage (`σ`, `τ` are allocator states in which the
original's allocation is live, i.e. below the fresh-address counter).  For
the empty vector there is no storage to share, but the dangling address
coincides, as the counterexample shows. -/
theorem c5_clone_fresh {T : Type} (v : AliasableVec T) (σ : Nat) (s : AliasableString)
    (τ : Nat) (hv : v.as_ptr < σ) (hs : s.vec.as_ptr < τ)
    (hvne : v.deref ≠ []) (hsne : s.vec.deref ≠ []) :
    ((v.clone σ).1.deref = v.deref ∧ (v.clone σ).1.as_ptr ≠ v.as_ptr) ∧
      ((s.clone τ).1.vec.deref = s.vec.deref ∧ (s.clone τ).1.vec.as_ptr ≠ s.vec.as_ptr) := by
  have hv1 : v.data.isEmpty = false := by
    cases h2 : v.data with
    | nil => exact absurd h2 hvne
    | cons a l => rfl
  have hs1 : s.vec.data.isEmpty = false := by
    cases h2 : s.vec.data with
    | nil => exact absurd h2 hsne
    | cons a l => rfl
  unfold AliasableString.clone AliasableVec.clone
  rw [hv1, hs1]
  exact ⟨⟨rfl, Nat.ne_of_gt hv⟩, ⟨rfl, Nat.ne_of_gt hs⟩⟩

/-- Concrete instance of Claim C5's amended theorem: the nonempty vector
`[3]` at address 0 cloned in allocator state 1. -/
theorem c5_clone_fresh_witness :
    (((⟨0, [3], 1⟩ : AliasableVec Nat).clone 1).1.deref
        = (⟨0, [3], 1⟩ : AliasableVec Nat).deref ∧
      ((⟨0, [3], 1⟩ : AliasableVec Nat).clone 1).1.as_ptr
        ≠ (⟨0, [3], 1⟩ : AliasableVec Nat).as_ptr) ∧
      (((⟨⟨0, [104], 1⟩⟩ : AliasableString).clone 1).1.vec.deref
          = (⟨⟨0, [104], 1⟩⟩ : AliasableString).vec.deref ∧
        ((⟨⟨0, [104], 1⟩⟩ : AliasableString).clone 1).1.vec.as_ptr
          ≠ (⟨⟨0, [104], 1⟩⟩ : AliasableString).vec.as_ptr) :=
  c5_clone_fresh ⟨0, [3], 1⟩ 1 ⟨⟨0, [104], 1⟩⟩ 1 (by decide) (by decide)
    (by decide) (by decide)

/-- Claim C9: every `AliasableVec` reachable through the public operations
(`from_unique`, `from_unique_pin`, `default`, `clone`, `clone_from`)
satisfies length ≤ capacity, and the non-mutating observers `len`,
`capacity`, `as_ptr` and the dereference are pure reads of the stored
fields — they return exactly the stored length, capacity, address and
contents and modify nothing. -/
theorem c9_reachable_invariant {T : Type} :
    (∀ v : AliasableVec T, ReachableVec v → v.Wf) ∧
      (∀ v : AliasableVec T,
        v.len = v.data.length ∧ v.capacity = v.cap ∧ v.as_ptr = v.ptr ∧ v.deref = v.data) := by
  constructor
  · intro v h
    induction h with
    | from_unique u hu => exact hu
    | from_unique_pin u hu => exact hu
    | default => exact Nat.le_refl 0
    | clone v σ hv ih =>
      unfold AliasableVec.clone
      split_ifs with hcl
      · exact Nat.le_refl _
      · exact Nat.le_refl _
    | clone_from r s p hr hs ihr ihs => exact (clone_from_spec r s p).2
  · intro v
    exact ⟨rfl, rfl, rfl, rfl⟩

/-- Concrete instance of Claim C9's theorem: the default vector is
reachable and well-formed. -/
theorem c9_reachable_invariant_witness :
    (AliasableVec.default Nat).Wf ∧
      ((AliasableVec.default Nat).len = (AliasableVec.default Nat).data.length ∧
        (AliasableVec.default Nat).capacity = (AliasableVec.default Nat).cap ∧
        (AliasableVec.default Nat).as_ptr = (AliasableVec.default Nat).ptr ∧
        (AliasableVec.default Nat).deref = (AliasableVec.default Nat).data) :=
  ⟨(c9_reachable_invariant (T := Nat)).1 (AliasableVec.default Nat) ReachableVec.default,
    (c9_reachable_invariant (T := Nat)).2 (AliasableVec.default Nat)⟩

/-- Claim C4: hashing an `AliasableString` built from a `UniqueString`
writes the same hasher bytes as hashing the standard text value itself
(decoded-text hashing: content bytes plus the `0xFF` sentinel, with no
length prefix); hashing an `AliasableVec` or `AliasableBox` writes the same
bytes as hashing the contained element slice or value directly; and the
text hashing genuinely differs from raw-byte-slice hashing. -/
theorem c4_hash_consistent {T : Type} (eh : T → List Nat) (s : UniqueString)
    (u : UniqueVec T) (b : UniqueBox T) (v : AliasableVec T) (bytes : List Nat) :
    (AliasableString.from_unique s).hashBytes = s.hashBytes ∧
      (AliasableVec.from_unique u).hashBytes eh = u.hashBytes eh ∧
      v.hashBytes eh = sliceHashBytes eh v.deref ∧
      (AliasableBox.from_unique b).hashBytes eh = b.hashBytes eh ∧
      strHashBytes bytes ≠ sliceHashBytes (fun x => [x % 256]) bytes := by
  refine ⟨rfl, rfl, rfl, rfl, ?_⟩
  intro hcontra
  have hflat : ∀ l : List Nat, ((l.map fun x => [x % 256]).flatten).length = l.length := by
    intro l
    induction l with
    | nil => rfl
    | cons x xs ih => simp [ih]
  have hlen := congrArg List.length hcontra
  simp only [strHashBytes, sliceHashBytes, usizeLE, List.length_append, List.length_map,
    List.length_range, List.length_cons, List.length_nil, hflat] at hlen
  omega

/-- Concrete instance of Claim C10's theorem: the text `"hé"` (code points
104, 233) against the text `"i"` (code point 105). -/
theorem c10_string_order_matches_chars_witness :
    (AliasableString.beqs ⟨⟨0, encodeStr [104, 233], 3⟩⟩ ⟨⟨0, encodeStr [105], 1⟩⟩ = true ↔
        ([104, 233] : List Nat) = [105]) ∧
      (AliasableString.lts ⟨⟨0, encodeStr [104, 233], 3⟩⟩ ⟨⟨0, encodeStr [105], 1⟩⟩ = true ↔
        cmpL ncmp [104, 233] [105] = .lt) ∧
      AliasableString.cmps ⟨⟨0, encodeStr [104, 233], 3⟩⟩ ⟨⟨0, encodeStr [105], 1⟩⟩ =
        cmpL ncmp [104, 233] [105] :=
  c10_string_order_matches_chars [104, 233] [105]
    ⟨⟨0, encodeStr [104, 233], 3⟩⟩ ⟨⟨0, encodeStr [105], 1⟩⟩ rfl rfl

/-- For a linear order, `compare` is antisymmetric under `Ordering.swap`. -/
theorem compare_swap_linear {T : Type} [LinearOrder T] (x y : T) :
    (compare x y).swap = compare y x := by
  rcases lt_trichotomy x y with h | h | h
  · rw [compare_lt_iff_lt.mpr h, compare_gt_iff_gt.mpr h]; rfl
  · rw [compare_eq_iff_eq.mpr h, compare_eq_iff_eq.mpr h.symm]; rfl
  · rw [compare_gt_iff_gt.mpr h, compare_lt_iff_lt.mpr h]; rfl

/-- Claim C6: for wrapped ordered contents `a < b` (boxes and slots), list
contents `la` lexicographically below `lb` (buffers), and byte contents
`sa` below `sb` in `u8` lexicographic order (texts), all six comparison
operators and `cmp` on the wrappers agree with the contained values'
ordering: reflexive equality, strict inequality of the two, and
antisymmetry (`a < b` excludes both `b < a` and `a == b`); the stored
addresses and capacities are irrelevant. -/
theorem c6_ordering_consistent {T : Type} [LinearOrder T] (a b : T) (pa pb ca cb : Nat)
    (la lb : List T) (sa sb : List Nat) (h : a < b) (hl : cmpL compare la lb = .lt)
    (hsl : cmpL ncmp sa sb = .lt) :
    (AliasableBox.eqb ⟨pa, a⟩ ⟨pa, a⟩ = true ∧
        AliasableBox.eqb ⟨pa, a⟩ ⟨pb, b⟩ = false ∧
        AliasableBox.neb ⟨pa, a⟩ ⟨pb, b⟩ = true ∧
        AliasableBox.ltb ⟨pa, a⟩ ⟨pb, b⟩ = true ∧
        AliasableBox.leb ⟨pa, a⟩ ⟨pb, b⟩ = true ∧
        AliasableBox.gtb ⟨pa, a⟩ ⟨pb, b⟩ = false ∧
        AliasableBox.geb ⟨pa, a⟩ ⟨pb, b⟩ = false ∧
        AliasableBox.ltb ⟨pb, b⟩ ⟨pa, a⟩ = false ∧
        AliasableBox.gtb ⟨pb, b⟩ ⟨pa, a⟩ = true ∧
        AliasableBox.cmpb ⟨pa, a⟩ ⟨pa, a⟩ = .eq ∧
        AliasableBox.cmpb ⟨pa, a⟩ ⟨pb, b⟩ = .lt ∧
        AliasableBox.cmpb ⟨pb, b⟩ ⟨pa, a⟩ = .gt) ∧
      (AliasableMut.eqm ⟨pa, a⟩ ⟨pa, a⟩ = true ∧
        AliasableMut.eqm ⟨pa, a⟩ ⟨pb, b⟩ = false ∧
        AliasableMut.nem ⟨pa, a⟩ ⟨pb, b⟩ = true ∧
        AliasableMut.ltm ⟨pa, a⟩ ⟨pb, b⟩ = true ∧
        AliasableMut.lem ⟨pa, a⟩ ⟨pb, b⟩ = true ∧
        AliasableMut.gtm ⟨pa, a⟩ ⟨pb, b⟩ = false ∧
        AliasableMut.gem ⟨pa, a⟩ ⟨pb, b⟩ = false ∧
        AliasableMut.ltm ⟨pb, b⟩ ⟨pa, a⟩ = false ∧
        AliasableMut.gtm ⟨pb, b⟩ ⟨pa, a⟩ = true ∧
        AliasableMut.cmpm ⟨pa, a⟩ ⟨pa, a⟩ = .eq ∧
        AliasableMut.cmpm ⟨pa, a⟩ ⟨pb, b⟩ = .lt ∧
        AliasableMut.cmpm ⟨pb, b⟩ ⟨pa, a⟩ = .gt) ∧
      (AliasableVec.eqv ⟨pa, la, ca⟩ ⟨pa, la, ca⟩ = true ∧
        AliasableVec.eqv ⟨pa, la, ca⟩ ⟨pb, lb, cb⟩ = false ∧
        AliasableVec.nev ⟨pa, la, ca⟩ ⟨pb, lb, cb⟩ = true ∧
        AliasableVec.ltv ⟨pa, la, ca⟩ ⟨pb, lb, cb⟩ = true ∧
        AliasableVec.lev ⟨pa, la, ca⟩ ⟨pb, lb, cb⟩ = true ∧
        AliasableVec.gtv ⟨pa, la, ca⟩ ⟨pb, lb, cb⟩ = false ∧
        AliasableVec.gev ⟨pa, la, ca⟩ ⟨pb, lb, cb⟩ = false ∧
        AliasableVec.ltv ⟨pb, lb, cb⟩ ⟨pa, la, ca⟩ = false ∧
        AliasableVec.gtv ⟨pb, lb, cb⟩ ⟨pa, la, ca⟩ = true ∧
        AliasableVec.cmpv ⟨pa, la, ca⟩ ⟨pa, la, ca⟩ = .eq ∧
        AliasableVec.cmpv ⟨pa, la, ca⟩ ⟨pb, lb, cb⟩ = .lt ∧
        AliasableVec.cmpv ⟨pb, lb, cb⟩ ⟨pa, la, ca⟩ = .gt) ∧
      (AliasableString.beqs ⟨⟨pa, sa, ca⟩⟩ ⟨⟨pa, sa, ca⟩⟩ = true ∧
        AliasableString.beqs ⟨⟨pa, sa, ca⟩⟩ ⟨⟨pb, sb, cb⟩⟩ = false ∧
        AliasableString.nes ⟨⟨pa, sa, ca⟩⟩ ⟨⟨pb, sb, cb⟩⟩ = true ∧
        AliasableString.lts ⟨⟨pa, sa, ca⟩⟩ ⟨⟨pb, sb, cb⟩⟩ = true ∧
        AliasableString.les ⟨⟨pa, sa, ca⟩⟩ ⟨⟨pb, sb, cb⟩⟩ = true ∧
        AliasableString.gts ⟨⟨pa, sa, ca⟩⟩ ⟨⟨pb, sb, cb⟩⟩ = false ∧
        AliasableString.ges ⟨⟨pa, sa, ca⟩⟩ ⟨⟨pb, sb, cb⟩⟩ = false ∧
        AliasableString.lts ⟨⟨pb, sb, cb⟩⟩ ⟨⟨pa, sa, ca⟩⟩ = false ∧
        AliasableString.gts ⟨⟨pb, sb, cb⟩⟩ ⟨⟨pa, sa, ca⟩⟩ = true ∧
        AliasableString.cmps ⟨⟨pa, sa, ca⟩⟩ ⟨⟨pa, sa, ca⟩⟩ = .eq ∧
        AliasableString.cmps ⟨⟨pa, sa, ca⟩⟩ ⟨⟨pb, sb, cb⟩⟩ = .lt ∧
        AliasableString.cmps ⟨⟨pb, sb, cb⟩⟩ ⟨⟨pa, sa, ca⟩⟩ = .gt) := by
  have hcs : ∀ z : T, compare z z = .eq := fun z => compare_eq_iff_eq.mpr rfl
  have hne : a ≠ b := ne_of_lt h
  have hnlt : ¬b < a := lt_asymm h
  have hnle : ¬b ≤ a := not_le.mpr h
  have hle : a ≤ b := le_of_lt h
  have hnelb : la ≠ lb := by
    intro e
    rw [e, cmpL_self hcs] at hl
    exact Ordering.noConfusion hl
  have hswap : cmpL compare lb la = .gt := by
    have hs := cmpL_swap compare_swap_linear la lb
    rw [hl] at hs
    exact hs.symm
  have hnesb : sa ≠ sb := by
    intro e
    rw [e, cmpL_self ncmp_self] at hsl
    exact Ordering.noConfusion hsl
  have hswap_s : cmpL ncmp sb sa = .gt := by
    have hs := cmpL_swap ncmp_swap sa sb
    rw [hsl] at hs
    exact hs.symm
  refine ⟨⟨?_, ?_, ?_, ?_, ?_, ?_, ?_, ?_, ?_, ?_, ?_, ?_⟩,
    ⟨?_, ?_, ?_, ?_, ?_, ?_, ?_, ?_, ?_, ?_, ?_, ?_⟩,
    ⟨?_, ?_, ?_, ?_, ?_, ?_, ?_, ?_, ?_, ?_, ?_, ?_⟩,
    ⟨?_, ?_, ?_, ?_, ?_, ?_, ?_, ?_, ?_, ?_, ?_, ?_⟩⟩ <;>
    simp [AliasableBox.eqb, AliasableBox.neb, AliasableBox.ltb, AliasableBox.leb,
      AliasableBox.gtb, AliasableBox.geb, AliasableBox.cmpb, AliasableBox.deref,
      AliasableMut.eqm, AliasableMut.nem, AliasableMut.ltm, AliasableMut.lem,
      AliasableMut.gtm, AliasableMut.gem, AliasableMut.cmpm, AliasableMut.deref,
      AliasableVec.eqv, AliasableVec.nev, AliasableVec.beq, AliasableVec.ltv,
      AliasableVec.lev, AliasableVec.gtv, AliasableVec.gev, AliasableVec.cmpv,
      AliasableVec.deref, AliasableString.beqs, AliasableString.nes,
      AliasableString.lts, AliasableString.les, AliasableString.gts,
      AliasableString.ges, AliasableString.cmps,
      eqL_hom_iff, Bool.eq_false_iff, cmpL_self hcs, cmpL_self ncmp_self,
      h, hne, hnlt, hnle, hle, hnelb, hl, hswap, hnesb, hsl, hswap_s, hcs,
      compare_lt_iff_lt, compare_gt_iff_gt, compare_eq_iff_eq]

/-- Concrete instance of Claim C6's theorem: contents `1 < 2`, lists `[1]`
before `[2]`, and byte contents `[1]` before `[2]`. -/
theorem c6_ordering_consistent_witness :
    AliasableBox.eqb ⟨0, (1 : Nat)⟩ ⟨0, 1⟩ = true ∧
      AliasableBox.ltb ⟨0, (1 : Nat)⟩ ⟨1, 2⟩ = true ∧
      AliasableMut.cmpm ⟨0, (1 : Nat)⟩ ⟨1, 2⟩ = .lt ∧
      AliasableVec.ltv ⟨0, [(1 : Nat)], 0⟩ ⟨1, [2], 0⟩ = true ∧
      AliasableVec.cmpv ⟨1, [(2 : Nat)], 0⟩ ⟨0, [1], 0⟩ = .gt ∧
      AliasableString.lts ⟨⟨0, [1], 0⟩⟩ ⟨⟨1, [2], 0⟩⟩ = true ∧
      AliasableString.cmps ⟨⟨1, [2], 0⟩⟩ ⟨⟨0, [1], 0⟩⟩ = .gt := by
  have H := c6_ordering_consistent (T := Nat) 1 2 0 1 0 0 [1] [2] [1] [2]
    (by decide) (by decide) (by decide)
  obtain ⟨⟨b1, _, _, b4, _⟩, ⟨_, _, _, _, _, _, _, _, _, _, m11, _⟩,
    ⟨_, _, _, v4, _, _, _, _, _, _, _, v12⟩,
    ⟨_, _, _, s4, _, _, _, _, _, _, _, s12⟩⟩ := H
  exact ⟨b1, b4, m11, v4, v12, s4, s12⟩

end Aliasable
